import Mathlib

/-!
Shallow embedding of the core of the `abstract-ns` name-resolution library.

The Rust source is embedded as executable Lean definitions:

* `src/addr.rs`  — `Address`, `WeightedSet`, `pick_one`, equality,
  `compare_addresses`, `union`;
* `src/name.rs`  — `Name::from_str` (`namecheck`) and `Display`;
* `src/routing.rs` — `Router::resolve` / `Router::subscribe` dispatch;
* `src/mem.rs`   — `MemResolver::resolve`;
* `src/stream_once.rs` and `src/combinators.rs` — the two `StreamOnce`
  one-shot-to-stream adapters;
* `src/union.rs` — the `Union` stream merge.

Machine integers (`u16`, `u64` weights) are modelled as `Nat`; none of the
properties proved below depends on wrap-around behaviour.  Randomness
(`thread_rng`) is modelled by passing the drawn sample explicitly.  Streams
and futures (futures 0.1 `poll` on `&mut self`) are modelled as explicit
state machines: a future or stream is a fixed oracle `Nat → poll result`
together with a cursor counting how many times it has been polled.
-/

namespace AbstractNs

/-- Model of `std::net::SocketAddr`, abstracted: a textual IP plus a port.  Only
equality of socket addresses matters to the embedded code. -/
structure SocketAddr where
  ip : List Char
  port : Nat
deriving DecidableEq

/-- One priority level of an `Address`: the `Vec<(Weight, SocketAddr)>`
behind `WeightedSet` in `src/addr.rs` (weights are `u64`, modelled `Nat`). -/
abbrev WSet := List (Nat × SocketAddr)

/-- Struct of `addr.rs`: `struct Internal { addresses: Vec<Vec<(Weight, SocketAddr)>> }`
wrapped by `Address` (the `Arc` indirection is immaterial to values). -/
structure Address where
  addresses : List WSet
deriving DecidableEq

/-- Method `Address::at`: `self.0.addresses.get(priority)` with an empty set when
the priority level does not exist. -/
def Address.at (a : Address) (priority : Nat) : WSet :=
  a.addresses.getD priority []

/-- Method `WeightedSet::addresses()`: iteration over the socket addresses of one
priority level, discarding weights. -/
def wsAddresses (ws : WSet) : List SocketAddr :=
  ws.map Prod.snd

/-- The `total_weight` sum computed inside `WeightedSet::pick_one`. -/
def totalWeight (ws : WSet) : Nat :=
  (ws.map Prod.fst).sum

/-- The weighted-sampling scan of `WeightedSet::pick_one`:
`for &(w, addr) in self.addresses { if n < w { return Some(addr) } n -= w }`.
The `[]` case is the fall-through after the loop, `unreachable!()` in the
source, embedded as `none`. -/
def scanPick : WSet → Nat → Option SocketAddr
  | [], _ => none
  | (w, addr) :: rest, n => if n < w then some addr else scanPick rest (n - w)

/-- Method `WeightedSet::pick_one`.  Randomness is explicit: `choice` stands for the
draw of `thread_rng().choose` (used when all weights are zero, reduced
modulo the length) and `sample` for `Range::new(0, total_weight)`'s draw
(reduced modulo the total weight). -/
def WSet.pick_one (ws : WSet) (choice sample : Nat) : Option SocketAddr :=
  if ws.length = 0 then none
  else if totalWeight ws = 0 then
    (ws.get? (choice % ws.length)).map Prod.snd
  else
    scanPick ws (sample % totalWeight ws)

/-- Method `Address::pick_one`: `self.at(0).pick_one()`. -/
def Address.pick_one (a : Address) (choice sample : Nat) : Option SocketAddr :=
  WSet.pick_one (a.at 0) choice sample

/-- Source `impl PartialEq for WeightedSet` (`src/addr.rs`): equal lengths plus
mutual membership of the `(weight, addr)` pairs, order-ignoring. -/
def wsetEq (a b : WSet) : Bool :=
  a.length == b.length &&
  a.all (fun pair => b.contains pair) &&
  b.all (fun pair => a.contains pair)

/-- Source `impl PartialEq for Address` (`src/addr.rs`): same number of priority
levels and zipped levels equal as `WeightedSet`s. -/
def addressEq (x y : Address) : Bool :=
  x.addresses.length == y.addresses.length &&
  (x.addresses.zip y.addresses).all (fun so => wsetEq so.1 so.2)

/-- Test `other.addresses.iter().find(|&&(_, a1)| a == a1).is_some()`: does the
weighted set contain the given socket address (ignoring weight)? -/
def hasAddr (ws : WSet) (a : SocketAddr) : Bool :=
  ws.any (fun p => p.2 = a)

/-- Method `WeightedSet::compare_addresses`: the two push-loops of the source,
collecting addresses of `self` missing from `other` and vice versa. -/
def compare_addresses (self other : WSet) : List SocketAddr × List SocketAddr :=
  ((self.filter (fun p => !(hasAddr other p.2))).map Prod.snd,
   (other.filter (fun p => !(hasAddr self p.2))).map Prod.snd)

/-- Operation `HashSet::insert`, with the set modelled as a duplicate-free list in
insertion order (the hash iteration order is immaterial to every property
proved here: membership, node-count and duplicate-freeness). -/
def hsInsert (s : List SocketAddr) (a : SocketAddr) : List SocketAddr :=
  if a ∈ s then s else s ++ [a]

/-- Operation `set.extend(child.at(0).addresses())` on the modelled hash set. -/
def hsExtend (s : List SocketAddr) (l : List SocketAddr) : List SocketAddr :=
  l.foldl hsInsert s

/-- Source `impl FromIterator<SocketAddr> for Address`: one single priority level,
every entry with weight `0`. -/
def addressFromIter (l : List SocketAddr) : Address :=
  ⟨[l.map (fun a => (0, a))]⟩

/-- Function `union` of `addr.rs` (identical to `union.rs::union_addresses`): collect the
level-0 addresses of every input into a hash set, then rebuild a
single-level `Address` via `FromIterator`. -/
def union (addrs : List Address) : Address :=
  addressFromIter
    (addrs.foldl (fun s ad => hsExtend s (wsAddresses (ad.at 0))) [])

/-! Section: `src/name.rs` — `Name::from_str`, `namecheck`, `Display` -/

/-- Error enum of `name.rs` (`DotError`, `InvalidChar`, `InvalidPrefixSuffix`,
`InvalidPort`; the `ParseIntError` payload is dropped). -/
inductive NameError where
  | dotError
  | invalidChar
  | invalidPrefixSuffix
  | invalidPort
deriving DecidableEq

/-- Operation `value.splitn(2, ':')`: the part before the first `:`, and — when a `:`
is present — everything after it. -/
def splitFirstColon : List Char → List Char × Option (List Char)
  | [] => ([], none)
  | c :: rest =>
    if c = ':' then ([], some rest)
    else
      let p := splitFirstColon rest
      (c :: p.1, p.2)

/-- Operation `str::parse::<u16>()`: an optional leading `+`, then at least one ASCII
digit, value at most `65535`. -/
def parseU16 (s : List Char) : Option Nat :=
  let digits := match s with
    | '+' :: rest => rest
    | _ => s
  if digits = [] then none
  else if digits.all Char.isDigit then
    let v := digits.foldl (fun acc c => acc * 10 + (c.toNat - 48)) 0
    if v < 65536 then some v else none
  else none

/-- Rust `char::is_lowercase` (the Unicode `Lowercase` property) on the
ASCII range: exactly the letters `a`–`z`.  ASCII digits are uncased, so
`'1'.is_lowercase()` is `false`.  The source guards with `c.is_ascii()`
first, so only the ASCII case is ever consulted. -/
def isLowercaseAscii (c : Char) : Bool :=
  'a' ≤ c && c ≤ 'z'

/-- The per-character test of `namecheck`:
`c.is_ascii() && (c.is_lowercase() || c == '-' || c == '_')`. -/
def nameCharOk (c : Char) : Bool :=
  c.val ≤ 127 && (isLowercaseAscii c || c = '-' || c = '_')

/-- Operation `str::split('.')`: dot-separated pieces, keeping empty pieces (so that
`""` yields `[""]`, and consecutive dots yield empty pieces). -/
def splitDots : List Char → List (List Char)
  | [] => [[]]
  | c :: rest =>
    if c = '.' then [] :: splitDots rest
    else
      match splitDots rest with
      | p :: ps => (c :: p) :: ps
      | [] => [[c]]

/-- Guard `if name.ends_with('.') { name = &name[..name.len()-1] }` at the top of
`namecheck` (one trailing dot means a fully-qualified name). -/
def stripTrailingDot (name : List Char) : List Char :=
  if name.getLast? = some '.' then name.dropLast else name

/-- The body of `namecheck`'s loop for one piece, in source order: empty
piece, invalid character, then leading/trailing dash. -/
def checkPiece (piece : List Char) : Except NameError Unit :=
  if piece.length = 0 then .error .dotError
  else if !(piece.all nameCharOk) then .error .invalidChar
  else if piece.head? = some '-' || piece.getLast? = some '-' then
    .error .invalidPrefixSuffix
  else .ok ()

/-- The `for piece in pieces` loop of `namecheck`: first failing piece
wins. -/
def checkPieces : List (List Char) → Except NameError Unit
  | [] => .ok ()
  | p :: rest =>
    match checkPiece p with
    | .ok () => checkPieces rest
    | .error e => .error e

/-- Function `namecheck` of `name.rs`. -/
def namecheck (name : List Char) : Except NameError Unit :=
  checkPieces (splitDots (stripTrailingDot name))

/-- The private `Impl` struct behind `Name`: validated host plus optional
default port. -/
structure NameImpl where
  host : List Char
  defaultPort : Option Nat
deriving DecidableEq

/-- Source `impl FromStr for Name`: split at the first `:`, parse the port (before
running `namecheck`, per the `?` on the port parse), then `namecheck` the
host and store it verbatim. -/
def nameFromStr (value : List Char) : Except NameError NameImpl :=
  let p := splitFirstColon value
  match p.2 with
  | some portStr =>
    match parseU16 portStr with
    | some port =>
      match namecheck p.1 with
      | .ok () => .ok ⟨p.1, some port⟩
      | .error e => .error e
    | none => .error .invalidPort
  | none =>
    match namecheck p.1 with
    | .ok () => .ok ⟨p.1, none⟩
    | .error e => .error e

/-- Source `impl fmt::Display for Name`: the host verbatim, with `:port` appended
when a default port is present. -/
def nameDisplay (n : NameImpl) : List Char :=
  match n.defaultPort with
  | some p => n.host ++ ':' :: (Nat.repr p).toList
  | none => n.host

/-! Section: `src/error.rs` — the crate-wide `Error` enum -/

/-- Enum `Error` of `error.rs`.  The `TemporaryError` payload (a boxed error) is
dropped; `InvalidName` keeps the offending name and the static description
string. -/
inductive NsError where
  | invalidName (name : List Char) (description : String)
  | temporaryError
  | nameNotFound
  | noDefaultPort
deriving DecidableEq

/-! Section: `src/mem.rs` — `MemResolver` (plus the crate's `parse_name`) -/

/-- Function `parse_name` (the free function of the root crate, the same code as
`ns-dns-tokio/src/lib.rs::parse_name`): split `host:port`, `None` when the
port fails to parse as `u16`, no colon means no port. -/
def parse_name (name : List Char) : Option (List Char × Option Nat) :=
  let p := splitFirstColon name
  match p.2 with
  | some portStr =>
    match parseU16 portStr with
    | some port => some (p.1, some port)
    | none => none
  | none => some (p.1, none)

/-- Struct `MemResolver` of `mem.rs`: the in-memory host → IP table (the `HashMap` is
modelled as an association list; `IpAddr` as its textual form). -/
structure MemResolver where
  names : List (List Char × List Char)

/-- Method `MemResolver::contains_name`. -/
def MemResolver.contains_name (m : MemResolver) (name : List Char) : Bool :=
  (m.names.lookup name).isSome

/-- Method `MemResolver::resolve` (`src/mem.rs` lines 49-67): a name without a
default port fails with `Error::InvalidName(name, "default port must be
specified for stub resolver")`; a name with a port resolves through the
table (`(*addr, port).into()` builds a one-level, one-entry, weight-0
`Address`) or fails with `NameNotFound`; an unparsable port fails with
`Error::InvalidName(name, "default port can't be parsed")`. -/
def MemResolver.resolve (m : MemResolver) (name : List Char) :
    Except NsError Address :=
  match parse_name name with
  | some (_, none) =>
    .error (.invalidName name "default port must be specified for stub resolver")
  | some (host, some port) =>
    match m.names.lookup host with
    | some addr => .ok ⟨[[(0, ⟨addr, port⟩)]]⟩
    | none => .error .nameNotFound
  | none =>
    .error (.invalidName name "default port can't be parsed")

/-! Section: `src/routing.rs` — the `Router` -/

/-- Outcome of the `Router` dispatch, recording which branch of
`Router::resolve` / `Router::subscribe` produced the returned
future/stream: delegation to the in-memory exact-name table, delegation to
the resolver stored under a matched suffix key, delegation to the fallback
resolver, or `failed(Error::NameNotFound)`. -/
inductive Routed (ρ : Type) where
  | exact
  | bySuffix (suffix : List Char) (res : ρ)
  | byFallback (res : ρ)
  | nameNotFound
deriving DecidableEq

/-- Struct `Inner` of `routing.rs`: the exact-name `MemResolver` table, the
suffix → resolver `HashMap` (association list; resolvers are opaque values
of a parameter type `ρ`), and the optional fallback resolver. -/
structure Router (ρ : Type) where
  names : MemResolver
  suffixes : List (List Char × ρ)
  fallback : Option ρ

/-- Loop `for (idx, _) in host.match_indices('.')` with
`suffix = &host[idx+1..]`: the substrings following each dot, in
left-to-right dot order (so in strictly decreasing length). -/
def suffixesAfterDots : List Char → List (List Char)
  | [] => []
  | c :: rest =>
    if c = '.' then rest :: suffixesAfterDots rest
    else suffixesAfterDots rest

/-- Body of the `match_indices` loop: the first candidate suffix present in
the suffix table, together with its resolver. -/
def findSuffix (sfx : List (List Char × ρ)) :
    List (List Char) → Option (List Char × ρ)
  | [] => none
  | s :: rest =>
    match sfx.lookup s with
    | some res => some (s, res)
    | none => findSuffix sfx rest

/-- Method `Router::resolve` (`src/routing.rs` lines 81–100), embedded as
the dispatch decision it takes on `name.host()`: exact table first, then
the whole host as a suffix key, then the substring after each dot in
left-to-right order, then the fallback, else `NameNotFound`. -/
def Router.resolve (r : Router ρ) (host : List Char) : Routed ρ :=
  if r.names.contains_name host then .exact
  else
    match r.suffixes.lookup host with
    | some res => .bySuffix host res
    | none =>
      match findSuffix r.suffixes (suffixesAfterDots host) with
      | some sr => .bySuffix sr.1 sr.2
      | none =>
        match r.fallback with
        | some res => .byFallback res
        | none => .nameNotFound

/-- Method `Router::subscribe` (`src/routing.rs` lines 101–120): textually
the same dispatch as `Router::resolve`, returning a stream instead of a
future (ending in `StreamOnce::new(failed(Error::NameNotFound))`). -/
def Router.subscribe (r : Router ρ) (host : List Char) : Routed ρ :=
  if r.names.contains_name host then .exact
  else
    match r.suffixes.lookup host with
    | some res => .bySuffix host res
    | none =>
      match findSuffix r.suffixes (suffixesAfterDots host) with
      | some sr => .bySuffix sr.1 sr.2
      | none =>
        match r.fallback with
        | some res => .byFallback res
        | none => .nameNotFound

/-! Section: futures and streams as state machines

A futures-0.1 `Future::poll` returns `Ok(NotReady)`, `Ok(Ready(v))` or
`Err(e)`; a `Stream::poll` returns `Ok(NotReady)`, `Ok(Ready(Some(v)))`,
`Ok(Ready(None))` or `Err(e)`.  A deterministic future/stream polled on
`&mut self` is modelled as a fixed oracle from the poll count to the poll
result, plus a cursor. -/

/-- Result of one `Future::poll`. -/
inductive FPoll (ι ε : Type) where
  | notReady
  | ready (v : ι)
  | error (e : ε)
deriving DecidableEq

/-- Result of one `Stream::poll` (`item v` is `Ok(Ready(Some(v)))`, `done`
is `Ok(Ready(None))`). -/
inductive SPoll (ι ε : Type) where
  | notReady
  | item (v : ι)
  | done
  | error (e : ε)
deriving DecidableEq

/-- Test for the `Ok(Ready(Some(_)))` outcome. -/
def SPoll.isItem : SPoll ι ε → Bool
  | .item _ => true
  | _ => false

/-- Test for the `Err(_)` outcome. -/
def SPoll.isError : SPoll ι ε → Bool
  | .error _ => true
  | _ => false

/-! Section: `src/stream_once.rs` — the fused one-shot adapter -/

/-- Struct `StreamOnce` of `src/stream_once.rs`: `future: Option<F>`, with
the future modelled as oracle + poll cursor; `none` means the future has
been taken out after completion. -/
structure StreamOnce (ι ε : Type) where
  oracle : Nat → FPoll ι ε
  future : Option Nat

/-- Method `Stream::poll` of `src/stream_once.rs`: with no stored future
report `NotReady`; otherwise poll the future, and on `Ready` or `Err` set
`self.future = None` before forwarding the outcome as the single stream
item. -/
def StreamOnce.poll (s : StreamOnce ι ε) : StreamOnce ι ε × SPoll ι ε :=
  match s.future with
  | none => (s, .notReady)
  | some k =>
    match s.oracle k with
    | .notReady => (⟨s.oracle, some (k + 1)⟩, .notReady)
    | .ready v => (⟨s.oracle, none⟩, .item v)
    | .error e => (⟨s.oracle, none⟩, .error e)

/-! Section: `src/combinators.rs` — the non-fused `StreamOnce` -/

/-- Struct `StreamOnce` of `src/combinators.rs`: same `future: Option<F>`
field, but its `poll` (lines 49–63) never assigns `self.future = None`. -/
structure StreamOnceC (ι ε : Type) where
  oracle : Nat → FPoll ι ε
  future : Option Nat

/-- Method `Stream::poll` of `src/combinators.rs` lines 49–63: polls the
stored future and forwards `Ready(v)` as `Ready(Some(v))` — without ever
clearing `self.future`, so a completed inner future is polled again on the
next call. -/
def StreamOnceC.poll (s : StreamOnceC ι ε) : StreamOnceC ι ε × SPoll ι ε :=
  match s.future with
  | none => (s, .notReady)
  | some k =>
    match s.oracle k with
    | .notReady => (⟨s.oracle, some (k + 1)⟩, .notReady)
    | .ready v => (⟨s.oracle, some (k + 1)⟩, .item v)
    | .error e => (⟨s.oracle, some (k + 1)⟩, .error e)

/-! Section: `src/union.rs` — the `Union` stream merge -/

/-- One input of the `Union` merge: a boxed address stream (oracle +
cursor) together with its `buf` slot holding the last known `Address`. -/
structure Slot where
  oracle : Nat → SPoll Address NsError
  pos : Nat
  buf : Option Address

/-- Expected effect of one `Union::poll` on one input: the stream is polled
(cursor advanced) and a produced item replaces the slot value, anything
else leaves the slot unchanged. -/
def Slot.step (s : Slot) : Slot :=
  ⟨s.oracle, s.pos + 1,
    match s.oracle s.pos with
    | .item a => some a
    | _ => s.buf⟩

/-- Function `union_addresses` of `src/union.rs` — textually the same code
as `union` in `src/addr.rs`. -/
def union_addresses (addrs : List Address) : Address :=
  union addrs

/-- Loop of `Union::poll` over `self.streams` (`src/union.rs` lines 33–43):
each input is polled in order; `Ready(Some(a))` stores `a` in the slot and
sets `changed`; `NotReady` and `Ready(None)` leave the slot; `Err(e)` (the
`?` operator) aborts the loop at once, leaving later inputs unpolled.
Returns the updated slots, the `changed` flag and the aborting error, if
any. -/
def scanSlots : List Slot → List Slot × Bool × Option NsError
  | [] => ([], false, none)
  | s :: rest =>
    match s.oracle s.pos with
    | .error e => (⟨s.oracle, s.pos + 1, s.buf⟩ :: rest, false, some e)
    | .item a =>
      let r := scanSlots rest
      (⟨s.oracle, s.pos + 1, some a⟩ :: r.1, true, r.2.2)
    | .notReady =>
      let r := scanSlots rest
      (⟨s.oracle, s.pos + 1, s.buf⟩ :: r.1, r.2.1, r.2.2)
    | .done =>
      let r := scanSlots rest
      (⟨s.oracle, s.pos + 1, s.buf⟩ :: r.1, r.2.1, r.2.2)

/-- Method `Stream::poll` for `Union` (`src/union.rs` lines 31–49): run the
loop; propagate an error; with no change report `NotReady`; otherwise emit
`union_addresses` of all currently set slots (ended inputs keep
contributing their last stored value). -/
def Union.poll (slots : List Slot) : List Slot × SPoll Address NsError :=
  let r := scanSlots slots
  match r.2.2 with
  | some e => (r.1, .error e)
  | none =>
    if r.2.1 then
      (r.1, .item (union_addresses (r.1.filterMap Slot.buf)))
    else
      (r.1, .notReady)

/-! Section: concrete values used in witnesses and counterexamples -/

/-- Socket address `127.0.0.1:1234` of the spec's examples. -/
def addrLocal1 : SocketAddr := ⟨"127.0.0.1".toList, 1234⟩

/-- Socket address `10.0.0.1:3456` of the spec's examples. -/
def addrTen : SocketAddr := ⟨"10.0.0.1".toList, 3456⟩

/-- Socket address `127.0.0.2:1234` of the spec's examples. -/
def addrLocal2 : SocketAddr := ⟨"127.0.0.2".toList, 1234⟩

/-- Inner future that is immediately ready with `7`, and stays so when
polled again (a repoll-safe future, e.g. a shared future). -/
def readySevenOracle : Nat → FPoll Nat Nat := fun _ => .ready 7

/-- Fresh `combinators.rs` adapter over `readySevenOracle`. -/
def streamOnceCSeven : StreamOnceC Nat Nat := ⟨readySevenOracle, some 0⟩

/-- Fresh `stream_once.rs` adapter over `readySevenOracle`. -/
def streamOnceSeven : StreamOnce Nat Nat := ⟨readySevenOracle, some 0⟩

/-- In-memory resolver mapping `localhost` to `127.0.0.1`. -/
def memLocalhost : MemResolver := ⟨[("localhost".toList, "127.0.0.1".toList)]⟩

/-! Section: helper lemmas -/

/-- With no colon in the input, `splitFirstColon` returns the whole input
and no port part. -/
theorem splitFirstColon_no_colon {name : List Char} (h : ':' ∉ name) :
    splitFirstColon name = (name, none) := by
  induction name with
  | nil => rfl
  | cons c rest ih =>
    have hc : ¬ c = ':' := fun hc => h (hc ▸ List.mem_cons_self c rest)
    have hr : ':' ∉ rest := fun hr => h (List.mem_cons_of_mem c hr)
    simp [splitFirstColon, hc, ih hr]

/-! Section: C1 -/

/-- C1: the claim says every hostname over `[a-z0-9_.-]` (no empty label,
no label edge dash) parses; the code refuses ASCII digits, because
`char::is_lowercase` is false on digits — contradicting the `InvalidChar`
error's own description, which promises that ASCII numbers are supported.
At the failing input `"ns1"` parsing yields `InvalidChar`, while the
digit-free `"ns"` parses fine and the trailing-dot form `"name.root."`
keeps its dot through `Display`. -/
theorem claim_C1 :
    nameFromStr "ns1".toList = .error NameError.invalidChar ∧
    nameFromStr "ns".toList = .ok ⟨"ns".toList, none⟩ ∧
    nameFromStr "name.root.".toList = .ok ⟨"name.root.".toList, none⟩ ∧
    nameDisplay ⟨"name.root.".toList, none⟩ = "name.root.".toList := by
  refine ⟨rfl, rfl, rfl, rfl⟩

/-! Section: C8 -/

/-- C8: the claim says the one-shot-to-stream adapter emits its item once
and then reports not-ready forever.  The `stream_once.rs` adapter does
(third and fourth conjuncts), but the `combinators.rs` adapter never clears
`self.future`, so after emitting the item it polls the completed future
again and emits the item a second time (first and second conjuncts),
contradicting its own doc comment ("never returns ready again"). -/
theorem claim_C8 :
    streamOnceCSeven.poll.2 = SPoll.item 7 ∧
    streamOnceCSeven.poll.1.poll.2 = SPoll.item 7 ∧
    streamOnceSeven.poll.2 = SPoll.item 7 ∧
    streamOnceSeven.poll.1.poll.2 = SPoll.notReady := by
  refine ⟨rfl, rfl, rfl, rfl⟩

/-! Section: C10 -/

/-- C10 counterexample: resolving the port-less name `"localhost"` against
the in-memory resolver fails with `InvalidName("localhost", "default port
must be specified for stub resolver")`, not with `NoDefaultPort` as the
claim states. -/
theorem claim_C10_cex :
    MemResolver.resolve memLocalhost "localhost".toList =
      .error (.invalidName "localhost".toList
        "default port must be specified for stub resolver") ∧
    MemResolver.resolve memLocalhost "localhost".toList ≠
      .error NsError.noDefaultPort := by
  refine ⟨rfl, ?_⟩
  intro h
  rw [show MemResolver.resolve memLocalhost "localhost".toList =
      .error (.invalidName "localhost".toList
        "default port must be specified for stub resolver") from rfl] at h
  exact NsError.noConfusion (Except.error.inj h)

/-- C10 (amended): when the in-memory resolver is asked to resolve a name
carrying no default port (no colon in the name), resolution fails with the
`InvalidName` error carrying the message "default port must be specified
for stub resolver" — not with `NoDefaultPort`. -/
theorem claim_C10 (m : MemResolver) (name : List Char) (h : ':' ∉ name) :
    MemResolver.resolve m name =
      .error (.invalidName name
        "default port must be specified for stub resolver") := by
  unfold MemResolver.resolve parse_name
  rw [splitFirstColon_no_colon h]

/-- C10 witness: the amended theorem applied to the `localhost` table and
the concrete port-less name `"localhost"`. -/
theorem claim_C10_witness :
    MemResolver.resolve memLocalhost "localhost".toList =
      .error (.invalidName "localhost".toList
        "default port must be specified for stub resolver") :=
  claim_C10 memLocalhost "localhost".toList (by decide)

/-! Section: C4 -/

/-- Whenever the sample is below the total weight, the weighted scan of
`pick_one` hits an entry: the fall-through (`unreachable!`) is dead. -/
theorem scanPick_isSome {ws : WSet} {n : Nat} (h : n < totalWeight ws) :
    (scanPick ws n).isSome := by
  induction ws generalizing n with
  | nil => simp [totalWeight] at h
  | cons p rest ih =>
    obtain ⟨w, a⟩ := p
    by_cases hn : n < w
    · simp [scanPick, hn]
    · have hrest : n - w < totalWeight rest := by
        simp only [totalWeight, List.map_cons, List.sum_cons] at h ⊢
        omega
      simpa [scanPick, hn] using ih hrest

/-- The weighted scan only ever returns an address stored in the set. -/
theorem scanPick_mem {ws : WSet} {n : Nat} {a : SocketAddr}
    (h : scanPick ws n = some a) : a ∈ wsAddresses ws := by
  induction ws generalizing n with
  | nil => simp [scanPick] at h
  | cons p rest ih =>
    obtain ⟨w, x⟩ := p
    by_cases hn : n < w
    · simp only [scanPick, if_pos hn, Option.some.injEq] at h
      simp [wsAddresses, ← h]
    · simp only [scanPick, if_neg hn] at h
      simpa [wsAddresses] using Or.inr (by simpa [wsAddresses] using ih h)

/-- Source-level `pick_one` on a weighted set returns `none` exactly on the
empty set. -/
theorem pick_one_eq_none_iff (ws : WSet) (choice sample : Nat) :
    WSet.pick_one ws choice sample = none ↔ ws = [] := by
  constructor
  · intro h
    by_contra hne
    have hlen : ws.length ≠ 0 := by
      simpa [List.length_eq_zero] using hne
    unfold WSet.pick_one at h
    rw [if_neg hlen] at h
    by_cases htw : totalWeight ws = 0
    · rw [if_pos htw] at h
      have hlt : choice % ws.length < ws.length :=
        Nat.mod_lt _ (Nat.pos_of_ne_zero hlen)
      rw [List.get?_eq_get hlt] at h
      cases h
    · rw [if_neg htw] at h
      have hs : (scanPick ws (sample % totalWeight ws)).isSome :=
        scanPick_isSome (Nat.mod_lt _ (Nat.pos_of_ne_zero htw))
      rw [h] at hs
      cases hs
  · intro h
    subst h
    rfl

/-- Source-level `pick_one` only returns addresses of the set. -/
theorem pick_one_mem {ws : WSet} {choice sample : Nat} {x : SocketAddr}
    (h : WSet.pick_one ws choice sample = some x) : x ∈ wsAddresses ws := by
  unfold WSet.pick_one at h
  by_cases hlen : ws.length = 0
  · rw [if_pos hlen] at h
    cases h
  · rw [if_neg hlen] at h
    by_cases htw : totalWeight ws = 0
    · rw [if_pos htw] at h
      obtain ⟨p, hp, hpx⟩ := Option.map_eq_some'.mp h
      exact hpx ▸ List.mem_map_of_mem Prod.snd (List.get?_mem hp)
    · rw [if_neg htw] at h
      exact scanPick_mem h

/-- On a one-level, one-entry address the pick always returns that entry. -/
theorem pick_one_single (w : Nat) (x : SocketAddr) (choice sample : Nat) :
    WSet.pick_one [(w, x)] choice sample = some x := by
  by_cases hw : w = 0
  · subst hw
    simp [WSet.pick_one, totalWeight, Nat.mod_one]
  · have htw : totalWeight [(w, x)] = w := by
      simp [totalWeight]
    have hlt : sample % w < w := Nat.mod_lt _ (Nat.pos_of_ne_zero hw)
    simp [WSet.pick_one, htw, hw, scanPick, hlt]

/-- C4: `Address::pick_one` returns `none` exactly when priority level 0 is
empty; a returned entry always belongs to level 0; when the total weight is
positive the weighted scan always hits an entry, so the fall-through after
the scan (`unreachable!` in the source) is dead; and on a one-level,
one-entry address the pick always returns that entry. -/
theorem claim_C4 (a : Address) (choice sample : Nat) :
    (Address.pick_one a choice sample = none ↔ a.at 0 = []) ∧
    (∀ x, Address.pick_one a choice sample = some x →
      x ∈ wsAddresses (a.at 0)) ∧
    (∀ (ws : WSet) (n : Nat), n < totalWeight ws → (scanPick ws n).isSome) ∧
    (∀ (w : Nat) (x : SocketAddr),
      Address.pick_one ⟨[[(w, x)]]⟩ choice sample = some x) :=
  ⟨pick_one_eq_none_iff (a.at 0) choice sample,
   fun _ h => pick_one_mem h,
   fun _ _ h => scanPick_isSome h,
   fun w x => pick_one_single w x choice sample⟩

/-- C4 witness: the single-entry pick and the dead fall-through, evaluated
at `5·127.0.0.1:1234` (sampled anywhere) and at the set `[(2, 10.0.0.1:3456)]`
with sample `1 < 2`. -/
theorem claim_C4_witness :
    Address.pick_one ⟨[[(5, addrLocal1)]]⟩ 0 3 = some addrLocal1 ∧
    (scanPick [(2, addrTen)] 1).isSome = true :=
  ⟨(claim_C4 ⟨[[(5, addrLocal1)]]⟩ 0 3).2.2.2 5 addrLocal1,
   (claim_C4 ⟨[[(5, addrLocal1)]]⟩ 0 3).2.2.1 [(2, addrTen)] 1 (by decide)⟩

/-! Section: C5 -/

/-- Unfolding of the `WeightedSet` equality test: equal lengths and mutual
membership of the `(weight, addr)` pairs. -/
theorem wsetEq_true_iff (a b : WSet) :
    wsetEq a b = true ↔
      (a.length = b.length ∧ (∀ p ∈ a, p ∈ b) ∧ ∀ p ∈ b, p ∈ a) := by
  simp [wsetEq, List.all_eq_true, List.elem_iff, and_assoc]

/-- Mutual membership between duplicate-free lists is a permutation. -/
theorem perm_of_nodup_mutual_mem {a b : WSet} (ha : a.Nodup) (hb : b.Nodup)
    (h1 : ∀ p ∈ a, p ∈ b) (h2 : ∀ p ∈ b, p ∈ a) : a.Perm b := by
  refine List.perm_of_nodup_nodup_toFinset_eq ha hb ?_
  ext x
  simp only [List.mem_toFinset]
  exact ⟨fun h => h1 x h, fun h => h2 x h⟩

/-- On duplicate-free levels the source equality test is exactly
permutation (multiset) equality. -/
theorem wsetEq_true_iff_perm {a b : WSet} (ha : a.Nodup) (hb : b.Nodup) :
    wsetEq a b = true ↔ a.Perm b := by
  rw [wsetEq_true_iff]
  constructor
  · rintro ⟨_, h1, h2⟩
    exact perm_of_nodup_mutual_mem ha hb h1 h2
  · intro h
    exact ⟨h.length_eq, fun p hp => h.mem_iff.mp hp, fun p hp => h.mem_iff.mpr hp⟩

/-- Level-list form of the `Address` equality test, assuming duplicate-free
levels: equal level count and per-index permutation of levels. -/
theorem addressEq_levels_aux (xs ys : List WSet)
    (hx : ∀ l ∈ xs, l.Nodup) (hy : ∀ l ∈ ys, l.Nodup) :
    (xs.length == ys.length &&
      (xs.zip ys).all (fun so => wsetEq so.1 so.2)) = true ↔
      (xs.length = ys.length ∧ ∀ i, (xs.getD i []).Perm (ys.getD i [])) := by
  induction xs generalizing ys with
  | nil =>
    cases ys with
    | nil => simp [List.getD]
    | cons b ys => simp
  | cons a xs ih =>
    cases ys with
    | nil => simp
    | cons b ys =>
      have ha := hx a (List.mem_cons_self a xs)
      have hb := hy b (List.mem_cons_self b ys)
      have hx2 : ∀ l ∈ xs, l.Nodup := fun l hl => hx l (List.mem_cons_of_mem a hl)
      have hy2 : ∀ l ∈ ys, l.Nodup := fun l hl => hy l (List.mem_cons_of_mem b hl)
      simp only [List.zip_cons_cons, List.all_cons, List.length_cons,
        Bool.and_eq_true, beq_iff_eq, Nat.succ.injEq]
      rw [wsetEq_true_iff_perm ha hb]
      constructor
      · rintro ⟨hlen, hhead, htail⟩
        have hrest := (ih ys hx2 hy2).mp (by simp [hlen, htail])
        refine ⟨hrest.1, fun i => ?_⟩
        cases i with
        | zero => simpa [List.getD] using hhead
        | succ i => simpa [List.getD] using hrest.2 i
      · rintro ⟨hlen, hperm⟩
        have hhead : a.Perm b := by simpa [List.getD] using hperm 0
        have htail := (ih ys hx2 hy2).mpr
          ⟨hlen, fun i => by simpa [List.getD] using hperm (i + 1)⟩
        simp only [Bool.and_eq_true, beq_iff_eq] at htail
        exact ⟨hlen, hhead, htail.2⟩

/-- C5 counterexample: with duplicated entries inside a level, the source
equality test (length check plus mutual membership) accepts two addresses
whose level-0 multisets of `(weight, addr)` pairs differ — the claim's
"multiset of pairs" characterisation fails as stated. -/
theorem claim_C5_cex :
    addressEq ⟨[[(0, addrLocal1), (0, addrLocal1), (0, addrTen)]]⟩
        ⟨[[(0, addrLocal1), (0, addrTen), (0, addrTen)]]⟩ = true ∧
    ¬ ([((0 : Nat), addrLocal1), (0, addrLocal1), (0, addrTen)].Perm
        [(0, addrLocal1), (0, addrTen), (0, addrTen)]) :=
  ⟨by decide, by decide⟩

/-- C5 (amended): provided every priority level is duplicate-free, two
`Address` values are equal iff they have the same number of priority levels
and, level by level, the same multiset (permutation class) of
`(weight, socket address)` pairs, independent of storage order.  (With
duplicated entries the source test degenerates to set-plus-length
equality — see the counterexample.) -/
theorem claim_C5 (x y : Address)
    (hx : ∀ l ∈ x.addresses, l.Nodup) (hy : ∀ l ∈ y.addresses, l.Nodup) :
    addressEq x y = true ↔
      (x.addresses.length = y.addresses.length ∧
       ∀ i, (x.addresses.getD i []).Perm (y.addresses.getD i [])) := by
  simpa [addressEq] using addressEq_levels_aux x.addresses y.addresses hx hy

/-- C5 witness: the amended equivalence evaluated on two one-level
addresses that store the same weighted pairs in opposite order. -/
theorem claim_C5_witness :
    ((Address.mk [[(1, addrLocal1), (2, addrTen)]]).addresses.getD 0 []).Perm
      ((Address.mk [[(2, addrTen), (1, addrLocal1)]]).addresses.getD 0 []) :=
  ((claim_C5 ⟨[[(1, addrLocal1), (2, addrTen)]]⟩
      ⟨[[(2, addrTen), (1, addrLocal1)]]⟩
      (by decide) (by decide)).mp (by decide)).2 0

/-! Section: C6 -/

/-- Address-membership reading of the `find(...).is_some()` test. -/
theorem hasAddr_false_iff {ws : WSet} {a : SocketAddr} :
    hasAddr ws a = false ↔ a ∉ wsAddresses ws := by
  simp [hasAddr, wsAddresses, List.any_eq_true, List.mem_map]
  constructor
  · intro h x hx
    exact h x a hx rfl
  · intro h w b hb hba
    exact h w (hba ▸ hb)

/-- Membership in the `removed` component of `compare_addresses`. -/
theorem mem_compare_fst {self other : WSet} {a : SocketAddr} :
    a ∈ (compare_addresses self other).1 ↔
      a ∈ wsAddresses self ∧ a ∉ wsAddresses other := by
  simp only [compare_addresses, List.mem_map, List.mem_filter,
    Bool.not_eq_true', hasAddr_false_iff, wsAddresses]
  constructor
  · rintro ⟨p, ⟨hp, hq⟩, rfl⟩
    exact ⟨⟨p, hp, rfl⟩, hq⟩
  · rintro ⟨⟨p, hp, rfl⟩, hq⟩
    exact ⟨p, ⟨hp, hq⟩, rfl⟩

/-- Membership in the `added` component of `compare_addresses`. -/
theorem mem_compare_snd {self other : WSet} {a : SocketAddr} :
    a ∈ (compare_addresses self other).2 ↔
      a ∈ wsAddresses other ∧ a ∉ wsAddresses self := by
  simp only [compare_addresses, List.mem_map, List.mem_filter,
    Bool.not_eq_true', hasAddr_false_iff, wsAddresses]
  constructor
  · rintro ⟨p, ⟨hp, hq⟩, rfl⟩
    exact ⟨⟨p, hp, rfl⟩, hq⟩
  · rintro ⟨⟨p, hp, rfl⟩, hq⟩
    exact ⟨p, ⟨hp, hq⟩, rfl⟩

/-- The `removed` component preserves the storage order of `self`. -/
theorem compare_fst_sublist (self other : WSet) :
    (compare_addresses self other).1.Sublist (wsAddresses self) :=
  (List.filter_sublist self).map Prod.snd

/-- The `added` component preserves the storage order of `other`. -/
theorem compare_snd_sublist (self other : WSet) :
    (compare_addresses self other).2.Sublist (wsAddresses other) :=
  (List.filter_sublist other).map Prod.snd

/-- C6 counterexample: with a duplicated address inside the first set the
results of `compare_addresses` are not duplicate-free, contrary to the
claim's unconditional "stable and duplicate-free". -/
theorem claim_C6_cex :
    compare_addresses [(0, addrLocal1), (0, addrLocal1)] [] =
      ([addrLocal1, addrLocal1], []) ∧
    ¬ ([addrLocal1, addrLocal1].Nodup) :=
  ⟨by decide, by decide⟩

/-- C6 (amended): `compare_addresses` returns the weight-ignoring
asymmetric difference — `removed` holds exactly the addresses of `self`
absent from `other` and `added` exactly those of `other` absent from
`self`; both results are stable (sublists of the inputs' address
sequences); and provided each input's address sequence is duplicate-free,
so are both results.  The spec's concrete example evaluates as claimed. -/
theorem claim_C6 (self other : WSet)
    (hs : (wsAddresses self).Nodup) (ho : (wsAddresses other).Nodup) :
    (∀ a, a ∈ (compare_addresses self other).1 ↔
      a ∈ wsAddresses self ∧ a ∉ wsAddresses other) ∧
    (∀ a, a ∈ (compare_addresses self other).2 ↔
      a ∈ wsAddresses other ∧ a ∉ wsAddresses self) ∧
    (compare_addresses self other).1.Sublist (wsAddresses self) ∧
    (compare_addresses self other).2.Sublist (wsAddresses other) ∧
    (compare_addresses self other).1.Nodup ∧
    (compare_addresses self other).2.Nodup ∧
    compare_addresses [(0, addrLocal1), (0, addrTen)]
        [(0, addrLocal2), (0, addrTen)] = ([addrLocal1], [addrLocal2]) :=
  ⟨fun _ => mem_compare_fst, fun _ => mem_compare_snd,
   compare_fst_sublist self other, compare_snd_sublist self other,
   (compare_fst_sublist self other).nodup hs,
   (compare_snd_sublist self other).nodup ho,
   by decide⟩

/-- C6 witness: the amended theorem applied to the spec's example sets,
extracting the concrete removed/added lists. -/
theorem claim_C6_witness :
    compare_addresses [(0, addrLocal1), (0, addrTen)]
        [(0, addrLocal2), (0, addrTen)] = ([addrLocal1], [addrLocal2]) :=
  (claim_C6 [(0, addrLocal1), (0, addrTen)] [(0, addrLocal2), (0, addrTen)]
    (by decide) (by decide)).2.2.2.2.2.2

/-! Section: C7 -/

/-- Membership in a modelled hash-set insertion. -/
theorem mem_hsInsert {s : List SocketAddr} {a b : SocketAddr} :
    b ∈ hsInsert s a ↔ b ∈ s ∨ b = a := by
  by_cases h : a ∈ s
  · simp only [hsInsert, if_pos h]
    exact ⟨Or.inl, fun hb => hb.elim id (fun hba => hba ▸ h)⟩
  · simp [hsInsert, if_neg h]

/-- Membership in a modelled hash-set extension. -/
theorem mem_hsExtend {s l : List SocketAddr} {b : SocketAddr} :
    b ∈ hsExtend s l ↔ b ∈ s ∨ b ∈ l := by
  induction l generalizing s with
  | nil => simp [hsExtend]
  | cons a l ih =>
    show b ∈ hsExtend (hsInsert s a) l ↔ _
    rw [ih, mem_hsInsert]
    simp [or_assoc, or_comm, or_left_comm]

/-- Hash-set insertion keeps the modelled set duplicate-free. -/
theorem nodup_hsInsert {s : List SocketAddr} {a : SocketAddr}
    (h : s.Nodup) : (hsInsert s a).Nodup := by
  by_cases ha : a ∈ s
  · simpa [hsInsert, if_pos ha] using h
  · simp [hsInsert, if_neg ha, List.nodup_append, h, ha]

/-- Hash-set extension keeps the modelled set duplicate-free. -/
theorem nodup_hsExtend {s : List SocketAddr} {l : List SocketAddr}
    (h : s.Nodup) : (hsExtend s l).Nodup := by
  induction l generalizing s with
  | nil => simpa [hsExtend] using h
  | cons a l ih => exact ih (nodup_hsInsert h)

/-- The level-0 address sequence of `union` is the accumulated hash set. -/
theorem union_at_zero (addrs : List Address) :
    wsAddresses ((union addrs).at 0) =
      addrs.foldl (fun s ad => hsExtend s (wsAddresses (ad.at 0))) [] := by
  simp [union, addressFromIter, Address.at, wsAddresses, List.map_map,
    Function.comp]

/-- Membership in the accumulated hash set of `union`. -/
theorem mem_union_foldl {addrs : List Address} {s : List SocketAddr}
    {a : SocketAddr} :
    a ∈ addrs.foldl (fun s ad => hsExtend s (wsAddresses (ad.at 0))) s ↔
      a ∈ s ∨ ∃ ad ∈ addrs, a ∈ wsAddresses (ad.at 0) := by
  induction addrs generalizing s with
  | nil => simp
  | cons x xs ih =>
    show a ∈ xs.foldl _ (hsExtend s (wsAddresses (x.at 0))) ↔ _
    rw [ih, mem_hsExtend]
    simp [or_assoc]

/-- The accumulated hash set of `union` is duplicate-free. -/
theorem nodup_union_foldl {addrs : List Address} {s : List SocketAddr}
    (hs : s.Nodup) :
    (addrs.foldl (fun s ad => hsExtend s (wsAddresses (ad.at 0))) s).Nodup := by
  induction addrs generalizing s with
  | nil => simpa using hs
  | cons x xs ih => exact ih (nodup_hsExtend hs)

/-- C7: `union` builds a single-priority-level `Address`; an address sits
at level 0 of the union iff it sits at level 0 of some input; the level-0
addresses are duplicate-free; every resulting entry carries the same
weight `0`; and the spec's example union holds exactly 3 distinct
addresses at level 0. -/
theorem claim_C7 (addrs : List Address) :
    (union addrs).addresses.length = 1 ∧
    (∀ a, a ∈ wsAddresses ((union addrs).at 0) ↔
      ∃ ad ∈ addrs, a ∈ wsAddresses (ad.at 0)) ∧
    (wsAddresses ((union addrs).at 0)).Nodup ∧
    (∀ p ∈ (union addrs).at 0, p.1 = 0) ∧
    (wsAddresses ((union [⟨[[(0, addrLocal1), (0, addrTen)]]⟩,
        ⟨[[(0, addrLocal2), (0, addrTen)]]⟩]).at 0)).length = 3 ∧
    (wsAddresses ((union [⟨[[(0, addrLocal1), (0, addrTen)]]⟩,
        ⟨[[(0, addrLocal2), (0, addrTen)]]⟩]).at 0)).Nodup := by
  refine ⟨rfl, ?_, ?_, ?_, by decide, by decide⟩
  · intro a
    rw [union_at_zero, mem_union_foldl]
    simp
  · rw [union_at_zero]
    exact nodup_union_foldl List.nodup_nil
  · intro p hp
    simp only [union, addressFromIter, Address.at, List.getD_cons_zero,
      List.mem_map] at hp
    obtain ⟨a, _, rfl⟩ := hp
    rfl

/-- C7 witness: the union membership equivalence evaluated on the spec's
example inputs at the address `127.0.0.2:1234`. -/
theorem claim_C7_witness :
    addrLocal2 ∈ wsAddresses ((union [⟨[[(0, addrLocal1), (0, addrTen)]]⟩,
        ⟨[[(0, addrLocal2), (0, addrTen)]]⟩]).at 0) :=
  ((claim_C7 [⟨[[(0, addrLocal1), (0, addrTen)]]⟩,
      ⟨[[(0, addrLocal2), (0, addrTen)]]⟩]).2.1 addrLocal2).mpr
    ⟨⟨[[(0, addrLocal2), (0, addrTen)]]⟩, by decide, by decide⟩

/-! Section: C2 and C3 — the Router dispatch -/

/-- Concrete router of the spec's precedence example: exact entry
`localhost → 127.0.0.1`, suffix `consul` → resolver `1`, fallback
resolver `2`. -/
def routerEx : Router Nat :=
  ⟨⟨[("localhost".toList, "127.0.0.1".toList)]⟩, [("consul".toList, 1)], some 2⟩

/-- Concrete router of the longest-suffix example: suffixes `a.b` →
resolver `1` and `b` → resolver `2`, nothing else. -/
def routerAB : Router Nat :=
  ⟨⟨[]⟩, [("a.b".toList, 1), ("b".toList, 2)], none⟩

/-- The suffix scan returns `none` exactly when no candidate is a key of
the suffix table. -/
theorem findSuffix_eq_none_iff {ρ : Type} {sfx : List (List Char × ρ)}
    {cands : List (List Char)} :
    findSuffix sfx cands = none ↔ ∀ s ∈ cands, sfx.lookup s = none := by
  induction cands with
  | nil => exact ⟨fun _ s hs => absurd hs (List.not_mem_nil s), fun _ => rfl⟩
  | cons c rest ih =>
    cases h : sfx.lookup c with
    | some r =>
      simp only [findSuffix, h]
      constructor
      · intro hfs
        cases hfs
      · intro hall
        rw [hall c (List.mem_cons_self c rest)] at h
        cases h
    | none =>
      simp only [findSuffix, h, ih, List.mem_cons]
      constructor
      · intro hall s hs
        rcases hs with rfl | hs2
        · exact h
        · exact hall s hs2
      · intro hall s hs
        exact hall s (Or.inr hs)

/-- A hit of the suffix scan is a candidate present in the suffix table. -/
theorem findSuffix_some {ρ : Type} {sfx : List (List Char × ρ)}
    {cands : List (List Char)} {s : List Char} {res : ρ}
    (h : findSuffix sfx cands = some (s, res)) :
    s ∈ cands ∧ sfx.lookup s = some res := by
  induction cands with
  | nil => simp [findSuffix] at h
  | cons c rest ih =>
    cases hc : sfx.lookup c with
    | some r0 =>
      simp only [findSuffix, hc, Option.some.injEq, Prod.mk.injEq] at h
      obtain ⟨rfl, rfl⟩ := h
      exact ⟨List.mem_cons_self c rest, hc⟩
    | none =>
      simp only [findSuffix, hc] at h
      obtain ⟨hmem, hlook⟩ := ih h
      exact ⟨List.mem_cons_of_mem c hmem, hlook⟩

/-- On a candidate list sorted by strictly decreasing length, the first hit
of the suffix scan is the longest matching candidate. -/
theorem findSuffix_longest {ρ : Type} {sfx : List (List Char × ρ)}
    {cands : List (List Char)} {s : List Char} {res : ρ}
    (hpw : cands.Pairwise (fun a b => b.length < a.length))
    (h : findSuffix sfx cands = some (s, res)) :
    ∀ t ∈ cands, (sfx.lookup t).isSome → t.length ≤ s.length := by
  induction cands with
  | nil => simp [findSuffix] at h
  | cons c rest ih =>
    obtain ⟨hhead, htail⟩ := List.pairwise_cons.mp hpw
    cases hc : sfx.lookup c with
    | some r0 =>
      simp only [findSuffix, hc, Option.some.injEq, Prod.mk.injEq] at h
      obtain ⟨rfl, rfl⟩ := h
      intro t ht _
      rcases List.mem_cons.mp ht with rfl | ht2
      · exact Nat.le_refl _
      · exact (hhead t ht2).le
    | none =>
      simp only [findSuffix, hc] at h
      intro t ht hts
      rcases List.mem_cons.mp ht with rfl | ht2
      · rw [hc] at hts
        cases hts
      · exact ih htail h t ht2 hts

/-- Every dot-suffix of a host is strictly shorter than the host. -/
theorem suffixesAfterDots_length_lt (l : List Char) :
    ∀ s ∈ suffixesAfterDots l, s.length < l.length := by
  induction l with
  | nil => simp [suffixesAfterDots]
  | cons c rest ih =>
    intro s hs
    by_cases hc : c = '.'
    · simp only [suffixesAfterDots, if_pos hc, List.mem_cons] at hs
      rcases hs with rfl | hs2
      · simp
      · exact Nat.lt_succ_of_lt (ih s hs2)
    · simp only [suffixesAfterDots, if_neg hc] at hs
      exact Nat.lt_succ_of_lt (ih s hs)

/-- The candidate list of the router's suffix matching — the whole host
followed by its dot-suffixes in left-to-right dot order — has strictly
decreasing lengths. -/
theorem pairwise_candidates (l : List Char) :
    (l :: suffixesAfterDots l).Pairwise (fun a b => b.length < a.length) := by
  induction l with
  | nil => simp [suffixesAfterDots]
  | cons c rest ih =>
    by_cases hc : c = '.'
    · rw [show suffixesAfterDots (c :: rest) = rest :: suffixesAfterDots rest
        from by simp [suffixesAfterDots, hc]]
      refine List.Pairwise.cons ?_ ih
      intro s hs
      rcases List.mem_cons.mp hs with rfl | hs2
      · simp
      · exact Nat.lt_succ_of_lt (suffixesAfterDots_length_lt rest s hs2)
    · rw [show suffixesAfterDots (c :: rest) = suffixesAfterDots rest
        from by simp [suffixesAfterDots, hc]]
      refine List.Pairwise.cons ?_ (List.Pairwise.of_cons ih)
      intro s hs
      exact Nat.lt_succ_of_lt (suffixesAfterDots_length_lt rest s hs)

/-- C2: `Router::resolve` and `Router::subscribe` take the same dispatch
decision, and that decision follows the precedence chain: an exact entry in
the name table wins over everything (even when the host also matches a
suffix), otherwise a matching suffix resolver is used, otherwise the
configured fallback, and with none of these the result is the
`NameNotFound` failure. -/
theorem claim_C2 {ρ : Type} (r : Router ρ) (host : List Char) :
    Router.subscribe r host = Router.resolve r host ∧
    (r.names.contains_name host = true → Router.resolve r host = .exact) ∧
    (r.names.contains_name host = false →
      (∃ s ∈ host :: suffixesAfterDots host, (r.suffixes.lookup s).isSome) →
      ∃ s res, Router.resolve r host = .bySuffix s res ∧
        r.suffixes.lookup s = some res ∧
        s ∈ host :: suffixesAfterDots host) ∧
    (r.names.contains_name host = false →
      (∀ s ∈ host :: suffixesAfterDots host, r.suffixes.lookup s = none) →
      ∀ f, r.fallback = some f → Router.resolve r host = .byFallback f) ∧
    (r.names.contains_name host = false →
      (∀ s ∈ host :: suffixesAfterDots host, r.suffixes.lookup s = none) →
      r.fallback = none → Router.resolve r host = .nameNotFound) := by
  refine ⟨rfl, ?_, ?_, ?_, ?_⟩
  · intro h
    simp [Router.resolve, h]
  · intro h hex
    cases hl : r.suffixes.lookup host with
    | some res =>
      exact ⟨host, res, by simp [Router.resolve, h, hl],
        hl, List.mem_cons_self _ _⟩
    | none =>
      cases hf : findSuffix r.suffixes (suffixesAfterDots host) with
      | some sr =>
        obtain ⟨hmem, hlook⟩ := findSuffix_some hf
        exact ⟨sr.1, sr.2, by simp [Router.resolve, h, hl, hf],
          hlook, List.mem_cons_of_mem _ hmem⟩
      | none =>
        exfalso
        obtain ⟨s, hs, hsome⟩ := hex
        rcases List.mem_cons.mp hs with rfl | hs2
        · rw [hl] at hsome
          cases hsome
        · rw [findSuffix_eq_none_iff.mp hf s hs2] at hsome
          cases hsome
  · intro h hnone f hf
    have hl : r.suffixes.lookup host = none :=
      hnone host (List.mem_cons_self _ _)
    have hfs : findSuffix r.suffixes (suffixesAfterDots host) = none :=
      findSuffix_eq_none_iff.mpr fun s hs => hnone s (List.mem_cons_of_mem _ hs)
    simp [Router.resolve, h, hl, hfs, hf]
  · intro h hnone hfb
    have hl : r.suffixes.lookup host = none :=
      hnone host (List.mem_cons_self _ _)
    have hfs : findSuffix r.suffixes (suffixesAfterDots host) = none :=
      findSuffix_eq_none_iff.mpr fun s hs => hnone s (List.mem_cons_of_mem _ hs)
    simp [Router.resolve, h, hl, hfs, hfb]

/-- C2 witness: the exact-over-suffix precedence on the spec's example
router, at the host `localhost`. -/
theorem claim_C2_witness :
    Router.resolve routerEx "localhost".toList = Routed.exact :=
  (claim_C2 routerEx "localhost".toList).2.1 (by decide)

/-- C3: whenever the router dispatches through a suffix, that suffix is a
matching candidate (the whole host or the part after some dot), its
resolver is the one stored in the table, and every other matching candidate
is at most as long — the longest matching suffix wins.  In particular, with
suffixes `a.b` and `b` both registered, the host `x.a.b` routes to the
resolver for `a.b`. -/
theorem claim_C3 {ρ : Type} (r : Router ρ) (host s : List Char) (res : ρ)
    (h : Router.resolve r host = .bySuffix s res) :
    s ∈ host :: suffixesAfterDots host ∧
    r.suffixes.lookup s = some res ∧
    (∀ t ∈ host :: suffixesAfterDots host,
      (r.suffixes.lookup t).isSome → t.length ≤ s.length) ∧
    Router.resolve routerAB "x.a.b".toList = .bySuffix "a.b".toList 1 := by
  cases hc : MemResolver.contains_name r.names host with
  | true => simp [Router.resolve, hc] at h
  | false =>
    cases hl : r.suffixes.lookup host with
    | some res0 =>
      simp only [Router.resolve, hc, Bool.false_eq_true, if_false, hl,
        Routed.bySuffix.injEq] at h
      obtain ⟨h1, h2⟩ := h
      subst h1
      subst h2
      refine ⟨List.mem_cons_self _ _, hl, ?_, by decide⟩
      intro t ht _
      rcases List.mem_cons.mp ht with rfl | ht2
      · exact Nat.le_refl _
      · exact (suffixesAfterDots_length_lt _ t ht2).le
    | none =>
      cases hf : findSuffix r.suffixes (suffixesAfterDots host) with
      | some sr =>
        obtain ⟨s1, r1⟩ := sr
        simp only [Router.resolve, hc, Bool.false_eq_true, if_false, hl, hf,
          Routed.bySuffix.injEq] at h
        obtain ⟨h1, h2⟩ := h
        subst h1
        subst h2
        obtain ⟨hmem, hlook⟩ := findSuffix_some hf
        refine ⟨List.mem_cons_of_mem _ hmem, hlook, ?_, by decide⟩
        intro t ht hts
        rcases List.mem_cons.mp ht with rfl | ht2
        · rw [hl] at hts
          cases hts
        · exact findSuffix_longest
            (List.Pairwise.of_cons (pairwise_candidates host)) hf t ht2 hts
      | none =>
        cases hfb : r.fallback with
        | some f => simp [Router.resolve, hc, hl, hf, hfb] at h
        | none => simp [Router.resolve, hc, hl, hf, hfb] at h

/-- C3 witness: the longest-suffix example itself — host `x.a.b` routes to
the resolver registered for `a.b`, not the one for `b`. -/
theorem claim_C3_witness :
    Router.resolve routerAB "x.a.b".toList = .bySuffix "a.b".toList 1 :=
  (claim_C3 routerAB "x.a.b".toList "a.b".toList 1 (by decide)).2.2.2

/-! Section: C9 -/

/-- Input stream that immediately yields the address `127.0.0.1:1234`. -/
def slotItemA : Slot := ⟨fun _ => .item ⟨[[(0, addrLocal1)]]⟩, 0, none⟩

/-- Input stream that stays not-ready, with `10.0.0.1:3456` already stored
in its slot from an earlier poll. -/
def slotQuiet : Slot := ⟨fun _ => .notReady, 0, some ⟨[[(0, addrTen)]]⟩⟩

/-- With no input erroring, the `Union` scan advances every input, updates
exactly the slots whose input produced an item, and flags a change iff some
input produced an item. -/
theorem scanSlots_no_error {slots : List Slot}
    (h : ∀ s ∈ slots, (s.oracle s.pos).isError = false) :
    scanSlots slots =
      (slots.map Slot.step,
       slots.any (fun s => (s.oracle s.pos).isItem),
       none) := by
  induction slots with
  | nil => rfl
  | cons s rest ih =>
    have hs := h s (List.mem_cons_self s rest)
    have hrest := ih (fun t ht => h t (List.mem_cons_of_mem s ht))
    cases ho : s.oracle s.pos with
    | error e =>
      rw [ho] at hs
      cases hs
    | item a =>
      simp only [scanSlots, ho, hrest]
      simp [Slot.step, ho, SPoll.isItem]
    | notReady =>
      simp only [scanSlots, ho, hrest]
      simp [Slot.step, ho, SPoll.isItem]
    | done =>
      simp only [scanSlots, ho, hrest]
      simp [Slot.step, ho, SPoll.isItem]

/-- C9: provided no input stream errors on this poll, `Union::poll` polls
every input (each cursor advances) and stores any newly produced `Address`
in that input's slot; it reports not-ready exactly when no input produced a
new item; and otherwise it emits the union of all currently set slots —
slots of ended inputs included, which keep contributing their last stored
value. -/
theorem claim_C9 (slots : List Slot)
    (h : ∀ s ∈ slots, (s.oracle s.pos).isError = false) :
    (Union.poll slots).1 = slots.map Slot.step ∧
    ((Union.poll slots).2 = SPoll.notReady ↔
      ∀ s ∈ slots, (s.oracle s.pos).isItem = false) ∧
    ((∃ s ∈ slots, (s.oracle s.pos).isItem = true) →
      (Union.poll slots).2 =
        SPoll.item (union_addresses
          ((slots.map Slot.step).filterMap Slot.buf))) := by
  have hs := scanSlots_no_error h
  cases hany : slots.any (fun s => (s.oracle s.pos).isItem) with
  | true =>
    have hpoll : Union.poll slots =
        (slots.map Slot.step,
         SPoll.item (union_addresses
           ((slots.map Slot.step).filterMap Slot.buf))) := by
      simp [Union.poll, hs, hany]
    refine ⟨by rw [hpoll], ?_, fun _ => by rw [hpoll]⟩
    rw [hpoll]
    constructor
    · intro hcontr
      cases hcontr
    · intro hall
      obtain ⟨s, hmem, hitem⟩ := List.any_eq_true.mp hany
      rw [hall s hmem] at hitem
      cases hitem
  | false =>
    have hpoll : Union.poll slots = (slots.map Slot.step, SPoll.notReady) := by
      simp [Union.poll, hs, hany]
    refine ⟨by rw [hpoll], ?_, ?_⟩
    · rw [hpoll]
      simp only [true_iff]
      exact fun s hmem =>
        Bool.eq_false_iff.mpr (List.any_eq_false.mp hany s hmem)
    · intro hex
      exfalso
      obtain ⟨s, hmem, hitem⟩ := hex
      exact List.any_eq_false.mp hany s hmem hitem

/-- C9 witness: a two-input union where the first input yields a fresh
address and the second is not-ready but holds a previous value; the poll
emits the union of both slots. -/
theorem claim_C9_witness :
    (Union.poll [slotItemA, slotQuiet]).2 =
      SPoll.item (union_addresses
        (([slotItemA, slotQuiet].map Slot.step).filterMap Slot.buf)) :=
  (claim_C9 [slotItemA, slotQuiet] (by decide)).2.2
    ⟨slotItemA, List.mem_cons_self _ _, by decide⟩

end AbstractNs
